import Mathlib

/-!
# Verification of the Easydoc PDF form-filling backend

Shallow embedding of `src/fill_pdf.py` (font-size inference and the
overlay/merge pipeline) and of the geometry blocks of
`src/manual_entry_finder.py` (raster downscale and click-to-document
coordinate mapping), with theorems settling the specification's claims.

Python floats are modelled as exact rationals (`ℚ`); the standard-deviation
comparison `abs(s - mean) <= 2 * std` is embedded in the equivalent squared
form `(s - mean)^2 <= 4 * var`, and the equivalence with the square-root
form over `ℝ` is proved explicitly.
-/

set_option maxHeartbeats 1000000

namespace Easydoc

/-! ## Font-size inference: `get_average_char_size` (fill_pdf.py lines 12-144)

A PDF document is modelled at the level at which the Python code consumes
it: each page yields raw size candidates from three methods, and the code's
own plausibility filter `4 <= size <= 72` (lines 85, 101, 119) is part of
the embedding.  Values inside `Option` are raw parsed numbers; `none`
models an absent dictionary entry (methods 1) or a caught per-page analysis
failure (methods 2 and 3). -/

/-- Font descriptor dictionary fields read by method 1 (lines 48-61):
the explicit metric keys tried in order, and the `/FontBBox` entry. -/
structure FontDescriptor where
  capHeight : Option ℚ
  xHeight : Option ℚ
  ascent : Option ℚ
  fontHeight : Option ℚ
  fontBBox : Option (List ℚ)
deriving DecidableEq

/-- One font resource entry as consumed by method 1 (lines 42-86):
its descriptor, the numeric suffix parsed out of `/BaseFont` when the name
contains `-` and the suffix is a parseable number (lines 64-73), and the
`/FontMatrix` entry (lines 76-83). -/
structure Font where
  descriptor : Option FontDescriptor
  baseFontSuffix : Option ℚ
  fontMatrix : Option (List ℚ)
deriving DecidableEq

/-- Size extracted from a font descriptor: first metric key present among
`/CapHeight`, `/XHeight`, `/Ascent`, `/FontHeight` (lines 50-54), else the
bounding-box heuristic `(bbox[3] - bbox[1]) / 1000 * 12` when the box has
at least 4 entries (lines 57-61). -/
def descriptorSize (d : FontDescriptor) : Option ℚ :=
  match d.capHeight with
  | some v => some v
  | none =>
  match d.xHeight with
  | some v => some v
  | none =>
  match d.ascent with
  | some v => some v
  | none =>
  match d.fontHeight with
  | some v => some v
  | none =>
  match d.fontBBox with
  | some bbox => if 4 ≤ bbox.length then some ((bbox.getD 3 0 - bbox.getD 1 0) / 1000 * 12) else none
  | none => none

/-- Size extracted from `/FontMatrix`: `abs(matrix[3] * 1000)` when the
matrix has at least 4 entries (lines 76-83). -/
def matrixSize (m : List ℚ) : Option ℚ :=
  if 4 ≤ m.length then some |m.getD 3 0 * 1000| else none

/-- Method-1 cascade for one font (lines 45-84): descriptor metrics /
bbox, then base-name suffix, then font matrix. -/
def fontSize1 (f : Font) : Option ℚ :=
  match f.descriptor.bind descriptorSize with
  | some v => some v
  | none =>
  match f.baseFontSuffix with
  | some v => some v
  | none =>
  match f.fontMatrix with
  | some m => matrixSize m
  | none => none

/-- The plausibility filter applied to every candidate before it enters
the pool: `4 <= size <= 72` (lines 85, 101, 119). -/
def sizeOk (s : ℚ) : Bool :=
  decide (4 ≤ s ∧ s ≤ 72)

/-- One page of a document, at the granularity the size-inference code
reads it: the font resource entries (empty when the page has no
`/Resources` `/Font` dictionary), the numbers matched by the `Tf`
content-stream pattern (`none` models a missing/failing content stream,
lines 91, 106-107), and the text-layout run heights (`none` models a
caught layout-extraction failure, lines 122-123). -/
structure Page where
  fonts : List Font
  tfSizes : Option (List ℚ)
  layoutHeights : Option (List ℚ)
deriving DecidableEq

/-- A successfully opened and parsed document. -/
structure Document where
  pages : List Page
deriving DecidableEq

/-- Method-1 candidates contributed by one page (lines 35-86). -/
def method1Sizes (p : Page) : List ℚ :=
  (p.fonts.filterMap fontSize1).filter sizeOk

/-- Method-2 candidates contributed by one page (lines 90-107). -/
def method2Sizes (p : Page) : List ℚ :=
  match p.tfSizes with
  | some l => l.filter sizeOk
  | none => []

/-- Method-3 candidates contributed by one page (lines 111-123). -/
def method3Sizes (p : Page) : List ℚ :=
  match p.layoutHeights with
  | some l => l.filter sizeOk
  | none => []

/-- The `sizes` pool after all three methods have run (methods are pooled
in order, not short-circuited). -/
def candidatePool (doc : Document) : List ℚ :=
  (doc.pages.map method1Sizes).flatten ++ (doc.pages.map method2Sizes).flatten
    ++ (doc.pages.map method3Sizes).flatten

/-- `sum(sizes) / len(sizes)` (line 129). -/
def poolMean (l : List ℚ) : ℚ :=
  l.sum / l.length

/-- Population variance `sum((x - mean) ** 2 for x in sizes) / len(sizes)`
(line 130, before the square root is taken). -/
def poolVar (l : List ℚ) : ℚ :=
  ((l.map fun x => (x - poolMean l) ^ 2).sum) / l.length

/-- Outlier rejection (lines 128-131): when the pool has more than 2
values, keep the candidates with `abs(s - mean) <= 2 * std` where
`std = var ** 0.5`.  Embedded in the equivalent squared form
`(s - mean)^2 <= 4 * var` to stay inside `ℚ`; the equivalence with the
square-root form is proved in `trimOutliers_mem_iff_within_two_std`. -/
def trimOutliers (l : List ℚ) : List ℚ :=
  if 2 < l.length then
    l.filter fun s => decide ((s - poolMean l) ^ 2 ≤ 4 * poolVar l)
  else l

/-- Final size from the candidate pool (lines 126-139): fallback 9 on an
empty pool, else the mean of the trimmed pool.  An empty trimmed pool
would make the Python `sum(sizes)/len(sizes)` raise `ZeroDivisionError`,
caught by the outer handler which returns the default 9; the inner
`t.isEmpty` branch models exactly that observable behaviour (and is proved
unreachable in `trimOutliers_ne_nil`). -/
def inferFromPool (l : List ℚ) : ℚ :=
  if l.isEmpty then 9
  else
    let t := trimOutliers l
    if t.isEmpty then 9 else t.sum / t.length

/-- Failure to open or parse the document at all (`open` raising, the
reader constructor raising, or an uncaught per-font parse error inside
method 1): all land in the outer `except Exception` handler. -/
inductive PdfError where
  | fileNotFound
  | parseError
deriving DecidableEq

/-- `get_average_char_size` (lines 12-144): any document-level failure is
absorbed by the outer handler and yields the default 9; a parsed document
goes through the three pooled methods, outlier rejection and averaging. -/
def get_average_char_size (input : Except PdfError Document) : ℚ :=
  match input with
  | .error _ => 9
  | .ok doc => inferFromPool (candidatePool doc)

/-- Spec-side predicate, written from the spec's words for the outlier
step: a candidate is retained when its distance from the pool mean is at
most 2 population standard deviations, with the standard deviation taken
as a real square root.  Used to compare the embedded squared test against
the specification's phrasing. -/
def withinTwoStd (l : List ℚ) (s : ℚ) : Prop :=
  |(s : ℝ) - (poolMean l : ℝ)| ≤ 2 * Real.sqrt (poolVar l : ℝ)

/-! ## The merge pipeline: `fill_pdf` (fill_pdf.py lines 146-248)

Page objects are opaque to the overlay logic, so source pages are a type
parameter `α`; an output page is the source page paired with the overlay
layer merged onto it (`none` when the page had no placeholders and was
kept as-is, lines 237-238). -/

/-- The `position` dictionary of a placeholder: 1-based page number and
coordinates in document point space (origin bottom-left). -/
structure Position where
  page : Int
  x : ℚ
  y : ℚ
deriving DecidableEq

/-- One placeholder record: question label, response text, position. -/
structure Placeholder where
  question : String
  response : String
  position : Position
deriving DecidableEq

/-- The transient text layer drawn on one page's canvas (lines 202-226):
the font and size set once by `setFont`, the fill color set once by
`setFillColorRGB` (as the raw arguments on reportlab's 0-1 scale, so
`(0, 51/255, 102/255)` is RGB (0, 51, 102)), and the left-aligned
`drawString` runs in order, each as `(x, y, text)`. -/
structure Overlay where
  font : String
  size : ℚ
  color : ℚ × ℚ × ℚ
  runs : List (ℚ × ℚ × String)
deriving DecidableEq

/-- The bucket `page_placeholders[i]` built by the grouping loop
(lines 183-190): the placeholders whose 0-based page `position.page - 1`
equals `i`, in input order (dict insertion order). -/
def placeholdersForPage (phs : List Placeholder) (i : Nat) : List Placeholder :=
  phs.filter fun ph => decide (ph.position.page - 1 = (i : Int))

/-- The canvas built for one page's placeholders (lines 202-223):
Helvetica-Oblique at the document-wide size, fill color
`(0, 51/255, 102/255)`, one run per placeholder at `(x, y - 5)` with the
response text. -/
def composeOverlay (char_size : ℚ) (phs : List Placeholder) : Overlay :=
  { font := "Helvetica-Oblique"
    size := char_size
    color := (0, 51 / 255, 102 / 255)
    runs := phs.map fun ph => (ph.position.x, ph.position.y - 5, ph.response) }

/-- Processing of one page (lines 194-242): when the page's bucket exists
(`page_num in page_placeholders`, i.e. the bucket list is nonempty) the
overlay is composed and merged onto the page, otherwise the page is kept
original; either way the page is appended to the writer. -/
def processPage {α : Type} (char_size : ℚ) (phs : List Placeholder) (i : Nat) (page : α) :
    α × Option Overlay :=
  let mine := placeholdersForPage phs i
  if mine.isEmpty then (page, none) else (page, some (composeOverlay char_size mine))

/-- The page loop `for page_num in range(len(reader.pages))`
(lines 194-242), carrying the running index. -/
def fillPages {α : Type} (char_size : ℚ) (phs : List Placeholder) :
    Nat → List α → List (α × Option Overlay)
  | _, [] => []
  | i, p :: ps => processPage char_size phs i p :: fillPages char_size phs (i + 1) ps

/-- `fill_pdf`'s page-merge pass at a given document-wide character size:
every source page, in order, becomes an output page, merged with its
overlay when it has placeholders. -/
def fill_pdf {α : Type} (pages : List α) (phs : List Placeholder) (char_size : ℚ) :
    List (α × Option Overlay) :=
  fillPages char_size phs 0 pages

/-- The whole `fill_pdf` run (lines 146-248): the character size is
inferred once from the document by `get_average_char_size` (line 171) and
used for every page. -/
def fill_pdf_run {α : Type} (input : Except PdfError Document) (pages : List α)
    (phs : List Placeholder) : List (α × Option Overlay) :=
  fill_pdf pages phs (get_average_char_size input)

/-- Python's `os.path.rfind`-style last index of a character, `-1` when
absent. -/
def rfind (l : List Char) (c : Char) : Int :=
  match l.reverse.findIdx? fun a => a == c with
  | some j => (l.length : Int) - 1 - j
  | none => -1

/-- `os.path.splitext` for POSIX paths (separator `/`, extension
separator `.`): split at the last dot when it lies after the last
separator and at least one non-dot character of the basename precedes it
(leading dots of the basename never start an extension); otherwise the
extension is empty. -/
def splitext (p : List Char) : List Char × List Char :=
  if rfind p '/' < rfind p '.' then
    if (List.range p.length).any
        (fun i => decide (rfind p '/' < (i : Int)) && decide ((i : Int) < rfind p '.')
          && (p.getD i '.' != '.')) then
      (p.take (rfind p '.').toNat, p.drop (rfind p '.').toNat)
    else (p, [])
  else (p, [])

/-- Default output path (lines 165-167):
`base_name = os.path.splitext(pdf_path)[0]` then
`f"{base_name}_filled.pdf"`. -/
def fill_output_path (pdf_path : String) : String :=
  String.mk ((splitext pdf_path.toList).1 ++ "_filled.pdf".toList)

/-! ## Geometry of `manual_entry_finder.py` -/

/-- The MOUSEBUTTONDOWN click-to-document mapping (lines 98-110):
proportional position on the displayed image, scaled to the target
dimensions, with the y axis inverted from top-left to bottom-left
origin. -/
def mapClick (clickX clickY displayW displayH targetW targetH : ℚ) : ℚ × ℚ :=
  let propX := clickX / displayW
  let propY := clickY / displayH
  let targetX := propX * targetW
  let targetYtopleft := propY * targetH
  (targetX, targetH - targetYtopleft)

/-- The image-scaling factor (lines 42-50): start at 1.0, replace by
`maxW / srcW` when the width exceeds the bound, then replace by
`maxH / srcH` when the (already scaled) height still exceeds the bound. -/
def scale_factor (srcW srcH maxW maxH : ℚ) : ℚ :=
  let s1 := if maxW < srcW then maxW / srcW else 1
  if maxH < srcH * s1 then maxH / srcH else s1

/-- The displayed image dimensions (lines 42-67): when the scale factor is
below 1 both axes are scaled by it and truncated with `int(...)` (floor,
as the values are nonnegative); otherwise the original dimensions are
kept.  The exception fallback of lines 60-65 concerns the rendering
library only, not the computed dimensions. -/
def displayDims (srcW srcH : ℕ) (maxW maxH : ℚ) : ℕ × ℕ :=
  let s := scale_factor (srcW : ℚ) (srcH : ℚ) maxW maxH
  if s < 1 then ((((srcW : ℚ) * s).floor).toNat, (((srcH : ℚ) * s).floor).toNat)
  else (srcW, srcH)

/-! ## Helper lemmas -/

theorem mul_length_le_sum (l : List ℚ) (c : ℚ) (h : ∀ x ∈ l, c ≤ x) :
    c * l.length ≤ l.sum := by
  induction l with
  | nil => simp
  | cons a t ih =>
    have h1 : c ≤ a := h a (List.mem_cons_self a t)
    have h2 := ih fun x hx => h x (List.mem_cons_of_mem a hx)
    simp only [List.sum_cons, List.length_cons]
    push_cast
    linarith

theorem sum_le_mul_length (l : List ℚ) (c : ℚ) (h : ∀ x ∈ l, x ≤ c) :
    l.sum ≤ c * l.length := by
  induction l with
  | nil => simp
  | cons a t ih =>
    have h1 : a ≤ c := h a (List.mem_cons_self a t)
    have h2 := ih fun x hx => h x (List.mem_cons_of_mem a hx)
    simp only [List.sum_cons, List.length_cons]
    push_cast
    linarith

theorem mul_length_lt_sum (l : List ℚ) (c : ℚ) (hne : l ≠ []) (h : ∀ x ∈ l, c < x) :
    c * l.length < l.sum := by
  induction l with
  | nil => exact absurd rfl hne
  | cons a t ih =>
    have h1 : c < a := h a (List.mem_cons_self a t)
    rcases eq_or_ne t [] with rfl | ht
    · simpa using h1
    · have h2 := ih ht fun x hx => h x (List.mem_cons_of_mem a hx)
      simp only [List.sum_cons, List.length_cons]
      push_cast
      linarith

/-- Mean of a nonempty list with all elements in `[a, b]` stays in `[a, b]`. -/
theorem mean_bounds (l : List ℚ) (a b : ℚ) (hne : l ≠ [])
    (h : ∀ x ∈ l, a ≤ x ∧ x ≤ b) :
    a ≤ l.sum / l.length ∧ l.sum / l.length ≤ b := by
  have hn : (0 : ℚ) < l.length := by
    exact_mod_cast List.length_pos.mpr hne
  constructor
  · rw [le_div_iff₀ hn]
    exact mul_length_le_sum l a fun x hx => (h x hx).1
  · rw [div_le_iff₀ hn]
    exact sum_le_mul_length l b fun x hx => (h x hx).2

theorem poolVar_nonneg (l : List ℚ) : 0 ≤ poolVar l := by
  unfold poolVar
  apply div_nonneg
  · apply List.sum_nonneg
    intro y hy
    obtain ⟨x, _, rfl⟩ := List.mem_map.mp hy
    positivity
  · positivity

theorem mem_of_mem_trimOutliers (l : List ℚ) (s : ℚ) (h : s ∈ trimOutliers l) : s ∈ l := by
  unfold trimOutliers at h
  split at h
  · exact (List.mem_filter.mp h).1
  · exact h

/-- Outlier rejection never empties a nonempty pool: with `n > 2`, if every
candidate were strictly farther than 2 standard deviations from the mean,
the summed squared distances would exceed `4 n·var = 4·Σ`, impossible for a
nonnegative sum. -/
theorem trimOutliers_ne_nil (l : List ℚ) (hne : l ≠ []) : trimOutliers l ≠ [] := by
  unfold trimOutliers
  split
  · intro hemp
    have hall := List.filter_eq_nil_iff.mp hemp
    have hlt : ∀ y ∈ l.map fun x => (x - poolMean l) ^ 2, 4 * poolVar l < y := by
      intro y hy
      obtain ⟨x, hx, rfl⟩ := List.mem_map.mp hy
      have := hall x hx
      simp only [decide_eq_true_eq] at this
      exact lt_of_not_le this
    have hmapne : (l.map fun x => (x - poolMean l) ^ 2) ≠ [] := by
      simpa using hne
    have hsum := mul_length_lt_sum _ _ hmapne hlt
    rw [List.length_map] at hsum
    have hn : (0 : ℚ) < l.length := by
      exact_mod_cast List.length_pos.mpr hne
    have hveq : (l.map fun x => (x - poolMean l) ^ 2).sum = poolVar l * l.length := by
      unfold poolVar
      field_simp
    have hv := poolVar_nonneg l
    rw [hveq] at hsum
    nlinarith
  · exact hne

theorem sizeOk_of_mem_method1 (p : Page) (s : ℚ) (h : s ∈ method1Sizes p) :
    4 ≤ s ∧ s ≤ 72 := by
  unfold method1Sizes at h
  have := (List.mem_filter.mp h).2
  simpa [sizeOk] using this

theorem sizeOk_of_mem_method2 (p : Page) (s : ℚ) (h : s ∈ method2Sizes p) :
    4 ≤ s ∧ s ≤ 72 := by
  unfold method2Sizes at h
  rcases htf : p.tfSizes with _ | l <;> rw [htf] at h
  · simp at h
  · have := (List.mem_filter.mp h).2
    simpa [sizeOk] using this

theorem sizeOk_of_mem_method3 (p : Page) (s : ℚ) (h : s ∈ method3Sizes p) :
    4 ≤ s ∧ s ≤ 72 := by
  unfold method3Sizes at h
  rcases htf : p.layoutHeights with _ | l <;> rw [htf] at h
  · simp at h
  · have := (List.mem_filter.mp h).2
    simpa [sizeOk] using this

/-- Every candidate entering the `sizes` pool passed the `4 <= size <= 72`
filter. -/
theorem candidatePool_mem_range (doc : Document) (s : ℚ) (h : s ∈ candidatePool doc) :
    4 ≤ s ∧ s ≤ 72 := by
  unfold candidatePool at h
  rcases List.mem_append.mp h with h' | h'
  · rcases List.mem_append.mp h' with h'' | h''
    · obtain ⟨l, hl, hs⟩ := List.mem_flatten.mp h''
      obtain ⟨p, _, rfl⟩ := List.mem_map.mp hl
      exact sizeOk_of_mem_method1 p s hs
    · obtain ⟨l, hl, hs⟩ := List.mem_flatten.mp h''
      obtain ⟨p, _, rfl⟩ := List.mem_map.mp hl
      exact sizeOk_of_mem_method2 p s hs
  · obtain ⟨l, hl, hs⟩ := List.mem_flatten.mp h'
    obtain ⟨p, _, rfl⟩ := List.mem_map.mp hl
    exact sizeOk_of_mem_method3 p s hs

theorem inferFromPool_range (l : List ℚ) (h : ∀ x ∈ l, 4 ≤ x ∧ x ≤ 72) :
    inferFromPool l = 9 ∨ (4 ≤ inferFromPool l ∧ inferFromPool l ≤ 72) := by
  unfold inferFromPool
  rcases eq_or_ne l [] with rfl | hne
  · simp
  · have hlne : l.isEmpty = false := by simpa using hne
    have htne : trimOutliers l ≠ [] := trimOutliers_ne_nil l hne
    have htne' : (trimOutliers l).isEmpty = false := by simpa using htne
    rw [hlne]
    simp only [Bool.false_eq_true, if_false, htne']
    right
    exact mean_bounds (trimOutliers l) 4 72 htne
      fun x hx => h x (mem_of_mem_trimOutliers l x hx)

theorem abs_le_two_sqrt_iff (q v : ℚ) (hv : 0 ≤ v) :
    q ^ 2 ≤ 4 * v ↔ |(q : ℝ)| ≤ 2 * Real.sqrt (v : ℝ) := by
  have hv' : (0 : ℝ) ≤ (v : ℝ) := by exact_mod_cast hv
  have hs : Real.sqrt (v : ℝ) ^ 2 = (v : ℝ) := Real.sq_sqrt hv'
  have hsn : 0 ≤ 2 * Real.sqrt (v : ℝ) := by positivity
  constructor
  · intro h
    apply abs_le_of_sq_le_sq _ hsn
    have h' : (q : ℝ) ^ 2 ≤ 4 * (v : ℝ) := by exact_mod_cast h
    calc (q : ℝ) ^ 2 ≤ 4 * (v : ℝ) := h'
      _ = (2 * Real.sqrt (v : ℝ)) ^ 2 := by rw [mul_pow, hs]; ring
  · intro h
    have h2 : (q : ℝ) ^ 2 ≤ (2 * Real.sqrt (v : ℝ)) ^ 2 := by
      rw [← sq_abs (q : ℝ)]
      exact pow_le_pow_left₀ (abs_nonneg _) h 2
    rw [mul_pow, hs] at h2
    have h3 : (q : ℝ) ^ 2 ≤ 4 * (v : ℝ) := by linarith
    exact_mod_cast h3

/-- The embedded squared outlier test coincides with the specification's
two-standard-deviations phrasing. -/
theorem withinTwoStd_iff (l : List ℚ) (s : ℚ) :
    withinTwoStd l s ↔ (s - poolMean l) ^ 2 ≤ 4 * poolVar l := by
  unfold withinTwoStd
  rw [show (s : ℝ) - ((poolMean l : ℚ) : ℝ) = ((s - poolMean l : ℚ) : ℝ) by push_cast; ring]
  exact (abs_le_two_sqrt_iff (s - poolMean l) (poolVar l) (poolVar_nonneg l)).symm

/-- C3: the font-size inference contract.  For every opening outcome the
result is the fallback 9 or lies in `[4, 72]`; moreover for a parsed
document every pooled candidate lies in `[4, 72]`, outlier rejection never
empties a nonempty pool, and an empty pool yields exactly 9. -/
theorem get_average_char_size_contract (input : Except PdfError Document) :
    (get_average_char_size input = 9 ∨
      (4 ≤ get_average_char_size input ∧ get_average_char_size input ≤ 72)) ∧
    ∀ doc, input = .ok doc →
      (∀ s ∈ candidatePool doc, 4 ≤ s ∧ s ≤ 72) ∧
      (candidatePool doc ≠ [] → trimOutliers (candidatePool doc) ≠ []) ∧
      (candidatePool doc = [] → get_average_char_size input = 9) := by
  constructor
  · cases input with
    | error e => exact Or.inl rfl
    | ok doc =>
      exact inferFromPool_range (candidatePool doc)
        fun x hx => candidatePool_mem_range doc x hx
  · intro doc h
    subst h
    refine ⟨candidatePool_mem_range doc, trimOutliers_ne_nil _, ?_⟩
    intro hp
    simp [get_average_char_size, inferFromPool, hp]

/-- Witness for C3: a one-page document whose content stream declares
sizes 10 and 12; the inferred size is 11, inside `[4, 72]`. -/
theorem get_average_char_size_contract_witness :
    (4 ≤ get_average_char_size (.ok ⟨[⟨[], some [10, 12], none⟩]⟩) ∧
      get_average_char_size (.ok ⟨[⟨[], some [10, 12], none⟩]⟩) ≤ 72) ∧
    (∀ s ∈ candidatePool ⟨[⟨[], some [10, 12], none⟩]⟩, 4 ≤ s ∧ s ≤ 72) ∧
    trimOutliers (candidatePool ⟨[⟨[], some [10, 12], none⟩]⟩) ≠ [] := by
  have h := get_average_char_size_contract (.ok ⟨[⟨[], some [10, 12], none⟩]⟩)
  have hpool : candidatePool ⟨[⟨[], some [10, 12], none⟩]⟩ = [10, 12] := by
    norm_num [candidatePool, method1Sizes, method2Sizes, method3Sizes, sizeOk, List.filter]
  have hval : get_average_char_size (.ok ⟨[⟨[], some [10, 12], none⟩]⟩) = 11 := by
    norm_num [get_average_char_size, hpool, inferFromPool, trimOutliers, poolMean, poolVar]
  refine ⟨?_, (h.2 _ rfl).1, (h.2 _ rfl).2.1 (by simp [hpool])⟩
  rcases h.1 with h9 | hr
  · rw [hval] at h9
    norm_num at h9
  · exact hr

/-- C4 (amended): for pools of more than 2 values a candidate is retained
exactly when it is in the pool and within 2 population standard deviations
of the pool mean; pools of 2 or fewer values are not trimmed.  (The spec's
synthetic example `[10, 11, 9, 10, 200]` does not exclude 200: see the
counterexample theorem.) -/
theorem trimOutliers_characterization (l : List ℚ) (s : ℚ) :
    (2 < l.length → (s ∈ trimOutliers l ↔ s ∈ l ∧ withinTwoStd l s)) ∧
    (l.length ≤ 2 → trimOutliers l = l) ∧
    (l ≠ [] → inferFromPool l = (trimOutliers l).sum / (trimOutliers l).length) := by
  refine ⟨?_, ?_, ?_⟩
  · intro hlen
    unfold trimOutliers
    rw [if_pos hlen, List.mem_filter, withinTwoStd_iff]
    simp
  · intro hlen
    unfold trimOutliers
    rw [if_neg (by omega)]
  · intro hne
    have hlne : l.isEmpty = false := by simpa using hne
    have htne : (trimOutliers l).isEmpty = false := by
      simpa using trimOutliers_ne_nil l hne
    unfold inferFromPool
    rw [hlne]
    simp only [Bool.false_eq_true, if_false, htne]

/-- Witness for C4: the characterization applied to the spec's own pool
and the candidate 200. -/
theorem trimOutliers_characterization_witness :
    (200 ∈ trimOutliers [10, 11, 9, 10, 200] ↔
      200 ∈ ([10, 11, 9, 10, 200] : List ℚ) ∧ withinTwoStd [10, 11, 9, 10, 200] 200) ∧
    inferFromPool [10, 11, 9, 10, 200] =
      (trimOutliers [10, 11, 9, 10, 200]).sum / (trimOutliers [10, 11, 9, 10, 200]).length :=
  ⟨(trimOutliers_characterization [10, 11, 9, 10, 200] 200).1 (by decide),
    (trimOutliers_characterization [10, 11, 9, 10, 200] 200).2.2 (by decide)⟩

/-- C4 counterexample: in the spec's synthetic pool `[10, 11, 9, 10, 200]`
the mean is 48 and the population variance 28882/5, so
`|200 - 48| = 152` satisfies `152^2 = 23104 ≤ 4 * 28882/5 = 23105.6`:
the outlier 200 is retained, nothing is trimmed, and the result is 48 —
not close to 10. -/
theorem trimOutliers_spec_pool_cex :
    200 ∈ trimOutliers [10, 11, 9, 10, 200] ∧
      trimOutliers [10, 11, 9, 10, 200] = [10, 11, 9, 10, 200] ∧
      inferFromPool [10, 11, 9, 10, 200] = 48 := by
  have htrim : trimOutliers [10, 11, 9, 10, 200] = [10, 11, 9, 10, 200] := by
    norm_num [trimOutliers, poolMean, poolVar, List.filter]
  refine ⟨?_, htrim, ?_⟩
  · rw [htrim]
    simp
  · norm_num [inferFromPool, trimOutliers, poolMean, poolVar, List.filter]

/-- C10: `get_average_char_size` absorbs every document-level failure
(nonexistent file, unopenable or unparseable document) into the outer
handler and returns the default 9; it never propagates an error. -/
theorem get_average_char_size_error_fallback (e : PdfError) :
    get_average_char_size (.error e) = 9 :=
  rfl

/-! ## Theorems about the merge pipeline -/

theorem fillPages_length {α : Type} (c : ℚ) (phs : List Placeholder) (k : ℕ)
    (pages : List α) : (fillPages c phs k pages).length = pages.length := by
  induction pages generalizing k with
  | nil => rfl
  | cons p ps ih => simp [fillPages, ih (k + 1)]

theorem fillPages_get? {α : Type} (c : ℚ) (phs : List Placeholder) (k i : ℕ)
    (pages : List α) :
    (fillPages c phs k pages).get? i = (pages.get? i).map (processPage c phs (k + i)) := by
  induction pages generalizing k i with
  | nil => simp [fillPages]
  | cons p ps ih =>
    cases i with
    | zero => simp [fillPages]
    | succ n =>
      have := ih (k + 1) n
      simp only [fillPages, List.get?_cons_succ, this]
      have harith : k + 1 + n = k + (n + 1) := by omega
      rw [harith]

theorem fill_pdf_get? {α : Type} (pages : List α) (phs : List Placeholder) (c : ℚ)
    (i : ℕ) :
    (fill_pdf pages phs c).get? i = (pages.get? i).map (processPage c phs i) := by
  have := fillPages_get? c phs 0 i pages
  simpa [fill_pdf] using this

theorem processPage_fst {α : Type} (c : ℚ) (phs : List Placeholder) (i : ℕ) (p : α) :
    (processPage c phs i p).1 = p := by
  unfold processPage
  by_cases h : (placeholdersForPage phs i).isEmpty <;> simp [h]

theorem fillPages_map_fst {α : Type} (c : ℚ) (phs : List Placeholder) (k : ℕ)
    (pages : List α) : (fillPages c phs k pages).map Prod.fst = pages := by
  induction pages generalizing k with
  | nil => rfl
  | cons p ps ih => simp [fillPages, processPage_fst, ih (k + 1)]

/-- C7: the merged output has exactly as many pages as the source, in
source order (mapping each output entry to its underlying page gives back
the source list), and a page with no placeholders passes through with no
overlay merged onto it. -/
theorem fill_pdf_page_count_order {α : Type} (pages : List α) (phs : List Placeholder)
    (c : ℚ) :
    (fill_pdf pages phs c).length = pages.length ∧
    (fill_pdf pages phs c).map Prod.fst = pages ∧
    ∀ i : ℕ, placeholdersForPage phs i = [] →
      (fill_pdf pages phs c).get? i = (pages.get? i).map fun p => (p, none) := by
  refine ⟨fillPages_length c phs 0 pages, fillPages_map_fst c phs 0 pages, ?_⟩
  intro i hemp
  rw [fill_pdf_get?]
  cases hp : pages.get? i with
  | none => rfl
  | some p => simp [processPage, hemp]

/-- Witness for C7: a two-page document and one placeholder on page 1;
page index 1 has no placeholders and passes through unmodified. -/
theorem fill_pdf_page_count_order_witness :
    (fill_pdf [7, 8] [⟨"q", "t", ⟨1, 100, 700⟩⟩] 9).get? 1 =
      (([7, 8] : List ℕ).get? 1).map fun p => (p, none) :=
  (fill_pdf_page_count_order [7, 8] [⟨"q", "t", ⟨1, 100, 700⟩⟩] 9).2.2 1 (by decide)

/-- A placement is in range when its 0-based page index addresses an
existing page of a document with `n` pages. -/
def inRangePage (n : ℕ) (ph : Placeholder) : Bool :=
  decide (0 ≤ ph.position.page - 1 ∧ ph.position.page - 1 < (n : Int))

theorem placeholdersForPage_filter_inRange (n : ℕ) (phs : List Placeholder) (i : ℕ)
    (hi : i < n) :
    placeholdersForPage (phs.filter (inRangePage n)) i = placeholdersForPage phs i := by
  unfold placeholdersForPage
  rw [List.filter_filter]
  apply List.filter_congr
  intro ph _
  by_cases h : ph.position.page - 1 = (i : Int)
  · have hin : inRangePage n ph = true := by
      simp only [inRangePage, h, decide_eq_true_eq]
      constructor
      · exact_mod_cast Int.ofNat_nonneg i
      · exact_mod_cast hi
    simp [h, hin]
  · simp [h]

/-- C1 (amended): a placement whose `page` does not address an existing
page is silently dropped: the merge runs to completion, the output has one
entry per source page, and filtering the out-of-range placements away
beforehand produces the identical output.  No error of any kind is
raised (the embedding of `fill_pdf`'s merge pass is a total function; the
source defines no `PageOutOfRange`). -/
theorem fill_pdf_drops_out_of_range {α : Type} (pages : List α)
    (phs : List Placeholder) (c : ℚ) :
    fill_pdf pages phs c = fill_pdf pages (phs.filter (inRangePage pages.length)) c ∧
    (fill_pdf pages phs c).length = pages.length := by
  refine ⟨?_, fillPages_length c phs 0 pages⟩
  apply List.ext_get?
  intro i
  rw [fill_pdf_get?, fill_pdf_get?]
  cases hp : pages.get? i with
  | none => rfl
  | some p =>
    have hi : i < pages.length := List.get?_eq_some.mp hp |>.choose
    simp only [Option.map_some']
    unfold processPage
    rw [placeholdersForPage_filter_inRange pages.length phs i hi]

/-- C1 counterexample: the spec's scenario — a 2-page document and a
placement with `page = 5`.  The code does not raise: the merge completes
and produces a full 2-page output in which the placement simply left no
trace. -/
theorem fill_pdf_out_of_range_cex :
    fill_pdf [0, 1] [⟨"Name", "Jane", ⟨5, 100, 700⟩⟩] 9 = [((0 : ℕ), none), (1, none)] :=
  rfl

/-- C2 (amended): a placement on an existing page always emits a drawn run
at `(x, y - 5)` with its response text into that page's overlay — also
when the response is the empty string.  Empty-text placements are not
skipped; they merely draw zero glyphs, and their page still gets an
overlay layer merged onto it. -/
theorem fill_pdf_empty_text_emits_run {α : Type} (pages : List α)
    (phs : List Placeholder) (c : ℚ) (i : ℕ) (p : α) (ph : Placeholder)
    (hp : pages.get? i = some p) (hph : ph ∈ phs)
    (hpage : ph.position.page - 1 = (i : Int)) :
    ∃ o, (fill_pdf pages phs c).get? i = some (p, some o) ∧
      (ph.position.x, ph.position.y - 5, ph.response) ∈ o.runs := by
  have hmem : ph ∈ placeholdersForPage phs i :=
    List.mem_filter.mpr ⟨hph, by simp [hpage]⟩
  have hne : (placeholdersForPage phs i).isEmpty = false := by
    cases hm : placeholdersForPage phs i with
    | nil => rw [hm] at hmem; simp at hmem
    | cons a t => rfl
  refine ⟨composeOverlay c (placeholdersForPage phs i), ?_, ?_⟩
  · rw [fill_pdf_get?, hp]
    simp [processPage, hne]
  · unfold composeOverlay
    simp only []
    exact List.mem_map.mpr ⟨ph, hmem, rfl⟩

/-- Witness for C2's amended theorem: a page-1 placement with empty
response still yields an overlay containing its (empty) run. -/
theorem fill_pdf_empty_text_emits_run_witness :
    ∃ o, (fill_pdf [(0 : ℕ)] [⟨"q", "", ⟨1, 100, 700⟩⟩] 9).get? 0 = some (0, some o) ∧
      ((100 : ℚ), (700 : ℚ) - 5, "") ∈ o.runs :=
  fill_pdf_empty_text_emits_run [(0 : ℕ)] [⟨"q", "", ⟨1, 100, 700⟩⟩] 9 0 0
    ⟨"q", "", ⟨1, 100, 700⟩⟩ rfl (List.mem_singleton.mpr rfl) (by decide)

/-- C2 counterexample: with a single empty-text placement on the only
page, the output is NOT the untouched page: an overlay layer holding the
run `(100, 695, "")` is composed and merged, so the merged page differs
from the no-placement run. -/
theorem fill_pdf_empty_text_cex :
    fill_pdf [(0 : ℕ)] [⟨"q", "", ⟨1, 100, 700⟩⟩] 9 ≠ fill_pdf [(0 : ℕ)] [] 9 ∧
    fill_pdf [(0 : ℕ)] [⟨"q", "", ⟨1, 100, 700⟩⟩] 9 =
      [(0, some ⟨"Helvetica-Oblique", 9, (0, 51 / 255, 102 / 255), [(100, 695, "")]⟩)] := by
  have h2 : fill_pdf [(0 : ℕ)] [⟨"q", "", ⟨1, 100, 700⟩⟩] 9 =
      [(0, some ⟨"Helvetica-Oblique", 9, (0, 51 / 255, 102 / 255), [(100, 695, "")]⟩)] := by
    norm_num [fill_pdf, fillPages, processPage, placeholdersForPage, composeOverlay]
  have h0 : fill_pdf [(0 : ℕ)] ([] : List Placeholder) 9 = [(0, none)] := rfl
  refine ⟨?_, h2⟩
  rw [h2, h0]
  simp

/-- C8: every overlay merged by a `fill_pdf` run uses the built-in italic
face Helvetica-Oblique at the single document-wide inferred size, with
fill color `(0, 51/255, 102/255)` (RGB (0, 51, 102) on the 0-255 scale);
its runs are exactly the page's placements, each drawn left-aligned at
`(x, y - 5)`. -/
theorem fill_pdf_render_policy {α : Type} (input : Except PdfError Document)
    (pages : List α) (phs : List Placeholder) (i : ℕ) (p : α) (o : Overlay)
    (h : (fill_pdf_run input pages phs).get? i = some (p, some o)) :
    o.font = "Helvetica-Oblique" ∧
    o.size = get_average_char_size input ∧
    o.color = (0, 51 / 255, 102 / 255) ∧
    (∀ r ∈ o.runs, ∃ ph ∈ phs, ph.position.page - 1 = (i : Int) ∧
      r = (ph.position.x, ph.position.y - 5, ph.response)) ∧
    ∀ ph ∈ phs, ph.position.page - 1 = (i : Int) →
      (ph.position.x, ph.position.y - 5, ph.response) ∈ o.runs := by
  rw [fill_pdf_run, fill_pdf_get?] at h
  cases hp : pages.get? i with
  | none => rw [hp] at h; simp at h
  | some a =>
    rw [hp] at h
    simp only [Option.map_some', Option.some.injEq] at h
    rw [show processPage (get_average_char_size input) phs i a =
        (a, if (placeholdersForPage phs i).isEmpty then none
          else some (composeOverlay (get_average_char_size input)
            (placeholdersForPage phs i))) by
      unfold processPage
      by_cases hemp : (placeholdersForPage phs i).isEmpty <;> simp [hemp]] at h
    by_cases hemp : (placeholdersForPage phs i).isEmpty
    · rw [if_pos hemp] at h
      exact absurd (congrArg Prod.snd h).symm (by simp)
    · rw [if_neg hemp] at h
      have ho : o = composeOverlay (get_average_char_size input)
          (placeholdersForPage phs i) := by
        have := (congrArg Prod.snd h).symm
        simpa using this
      subst ho
      refine ⟨rfl, rfl, rfl, ?_, ?_⟩
      · intro r hr
        obtain ⟨ph, hmem, rfl⟩ := List.mem_map.mp hr
        have := List.mem_filter.mp hmem
        exact ⟨ph, this.1, by simpa using this.2, rfl⟩
      · intro ph hph hpage
        exact List.mem_map.mpr ⟨ph, List.mem_filter.mpr ⟨hph, by simp [hpage]⟩, rfl⟩

/-- Witness for C8: the spec's end-to-end scenario — one page, no size
signal (fallback 9), placement "Jane Doe" at (100, 700): the overlay is
italic Helvetica-Oblique size 9, marine blue, with the single run at
`(100, 700 - 5)`. -/
theorem fill_pdf_render_policy_witness :
    (composeOverlay 9 [⟨"Name", "Jane Doe", ⟨1, 100, 700⟩⟩]).font = "Helvetica-Oblique" ∧
    (composeOverlay 9 [⟨"Name", "Jane Doe", ⟨1, 100, 700⟩⟩]).size =
      get_average_char_size (.ok ⟨[⟨[], none, none⟩]⟩) ∧
    (composeOverlay 9 [⟨"Name", "Jane Doe", ⟨1, 100, 700⟩⟩]).color =
      (0, 51 / 255, 102 / 255) ∧
    (∀ r ∈ (composeOverlay 9 [⟨"Name", "Jane Doe", ⟨1, 100, 700⟩⟩]).runs,
      ∃ ph ∈ [(⟨"Name", "Jane Doe", ⟨1, 100, 700⟩⟩ : Placeholder)],
        ph.position.page - 1 = ((0 : ℕ) : Int) ∧
        r = (ph.position.x, ph.position.y - 5, ph.response)) ∧
    ∀ ph ∈ [(⟨"Name", "Jane Doe", ⟨1, 100, 700⟩⟩ : Placeholder)],
      ph.position.page - 1 = ((0 : ℕ) : Int) →
      (ph.position.x, ph.position.y - 5, ph.response) ∈
        (composeOverlay 9 [⟨"Name", "Jane Doe", ⟨1, 100, 700⟩⟩]).runs :=
  fill_pdf_render_policy (.ok ⟨[⟨[], none, none⟩]⟩) [()]
    [⟨"Name", "Jane Doe", ⟨1, 100, 700⟩⟩] 0 ()
    (composeOverlay 9 [⟨"Name", "Jane Doe", ⟨1, 100, 700⟩⟩]) rfl

/-! ## Theorems about the geometry helpers -/

/-- C5: inside the display bounds the mapper computes exactly
`(clickX / displayW * targetW, targetH - clickY / displayH * targetH)`,
and the per-axis transform is invertible: dividing back by the target
dimensions recovers the original proportional position exactly (the
embedding is over `ℚ`, so the floating-point tolerance is 0). -/
theorem mapClick_formula_roundtrip (cx cy dw dh tw th : ℚ)
    (hdw : 0 < dw) (hdh : 0 < dh) (htw : 0 < tw) (hth : 0 < th)
    (hx0 : 0 ≤ cx) (hx1 : cx < dw) (hy0 : 0 ≤ cy) (hy1 : cy < dh) :
    mapClick cx cy dw dh tw th = (cx / dw * tw, th - cy / dh * th) ∧
    (mapClick cx cy dw dh tw th).1 / tw = cx / dw ∧
    (th - (mapClick cx cy dw dh tw th).2) / th = cy / dh := by
  refine ⟨rfl, ?_, ?_⟩
  · show cx / dw * tw / tw = cx / dw
    rw [mul_div_assoc, div_self (ne_of_gt htw), mul_one]
  · show (th - (th - cy / dh * th)) / th = cy / dh
    rw [sub_sub_cancel, mul_div_assoc, div_self (ne_of_gt hth), mul_one]

/-- Witness for C5: the click (300, 200) on a 600x800 display mapped to
the 600x850 target space. -/
theorem mapClick_formula_roundtrip_witness :
    mapClick 300 200 600 800 600 850 = ((300 : ℚ) / 600 * 600, 850 - 200 / 800 * 850) ∧
    (mapClick 300 200 600 800 600 850).1 / 600 = (300 : ℚ) / 600 ∧
    (850 - (mapClick 300 200 600 800 600 850).2) / 850 = (200 : ℚ) / 800 :=
  mapClick_formula_roundtrip 300 200 600 800 600 850 (by norm_num) (by norm_num)
    (by norm_num) (by norm_num) (by norm_num) (by norm_num) (by norm_num) (by norm_num)

/-- C6: the downscale factor equals
`min (min (maxW / srcW) (maxH / srcH)) 1`; it never exceeds 1; it is
applied uniformly to both axes (the `displayDims` equation); and the
resulting dimensions fit inside the max bounds and never exceed the
source dimensions. -/
theorem scale_factor_min_fit (srcW srcH : ℕ) (maxW maxH : ℚ)
    (hW : 0 < srcW) (hH : 0 < srcH) (hmW : 0 < maxW) (hmH : 0 < maxH) :
    scale_factor (srcW : ℚ) (srcH : ℚ) maxW maxH =
      min (min (maxW / (srcW : ℚ)) (maxH / (srcH : ℚ))) 1 ∧
    scale_factor (srcW : ℚ) (srcH : ℚ) maxW maxH ≤ 1 ∧
    displayDims srcW srcH maxW maxH =
      (if scale_factor (srcW : ℚ) (srcH : ℚ) maxW maxH < 1 then
        ((((srcW : ℚ) * scale_factor (srcW : ℚ) (srcH : ℚ) maxW maxH).floor).toNat,
          (((srcH : ℚ) * scale_factor (srcW : ℚ) (srcH : ℚ) maxW maxH).floor).toNat)
      else (srcW, srcH)) ∧
    ((displayDims srcW srcH maxW maxH).1 : ℚ) ≤ maxW ∧
    ((displayDims srcW srcH maxW maxH).2 : ℚ) ≤ maxH ∧
    (displayDims srcW srcH maxW maxH).1 ≤ srcW ∧
    (displayDims srcW srcH maxW maxH).2 ≤ srcH := by
  have hW' : (0 : ℚ) < (srcW : ℚ) := by exact_mod_cast hW
  have hH' : (0 : ℚ) < (srcH : ℚ) := by exact_mod_cast hH
  have ha : 0 < maxW / (srcW : ℚ) := div_pos hmW hW'
  have hb : 0 < maxH / (srcH : ℚ) := div_pos hmH hH'
  have hs1 : (if maxW < (srcW : ℚ) then maxW / (srcW : ℚ) else 1) =
      min (maxW / (srcW : ℚ)) 1 := by
    by_cases h1 : maxW < (srcW : ℚ)
    · rw [if_pos h1, min_eq_left (le_of_lt ((div_lt_one hW').mpr h1))]
    · rw [if_neg h1, min_eq_right ((one_le_div hW').mpr (not_lt.mp h1))]
  have hmain : scale_factor (srcW : ℚ) (srcH : ℚ) maxW maxH =
      min (min (maxW / (srcW : ℚ)) (maxH / (srcH : ℚ))) 1 := by
    unfold scale_factor
    rw [hs1]
    have hcond : (maxH < (srcH : ℚ) * min (maxW / (srcW : ℚ)) 1) ↔
        maxH / (srcH : ℚ) < min (maxW / (srcW : ℚ)) 1 := by
      rw [div_lt_iff₀ hH', mul_comm]
    by_cases h2 : maxH / (srcH : ℚ) < min (maxW / (srcW : ℚ)) 1
    · rw [if_pos (hcond.mpr h2), min_right_comm]
      exact (min_eq_right (le_of_lt h2)).symm
    · rw [if_neg (fun hc => h2 (hcond.mp hc)), min_right_comm]
      exact (min_eq_left (not_lt.mp h2)).symm
  set s := scale_factor (srcW : ℚ) (srcH : ℚ) maxW maxH with hsdef
  have hs_le_one : s ≤ 1 := by rw [hmain]; exact min_le_right _ _
  have hs_pos : 0 < s := by
    rw [hmain]
    exact lt_min (lt_min ha hb) one_pos
  have hs_le_a : s ≤ maxW / (srcW : ℚ) := by
    rw [hmain]
    exact le_trans (min_le_left _ _) (min_le_left _ _)
  have hs_le_b : s ≤ maxH / (srcH : ℚ) := by
    rw [hmain]
    exact le_trans (min_le_left _ _) (min_le_right _ _)
  have hWs : (srcW : ℚ) * s ≤ maxW := by
    calc (srcW : ℚ) * s ≤ (srcW : ℚ) * (maxW / (srcW : ℚ)) :=
          mul_le_mul_of_nonneg_left hs_le_a (le_of_lt hW')
      _ = maxW := by field_simp
  have hHs : (srcH : ℚ) * s ≤ maxH := by
    calc (srcH : ℚ) * s ≤ (srcH : ℚ) * (maxH / (srcH : ℚ)) :=
          mul_le_mul_of_nonneg_left hs_le_b (le_of_lt hH')
      _ = maxH := by field_simp
  refine ⟨hmain, hs_le_one, rfl, ?_, ?_, ?_, ?_⟩ <;>
    unfold displayDims <;> rw [← hsdef] <;> by_cases hlt : s < 1
  · rw [if_pos hlt]
    have hnn : (0 : ℚ) ≤ (srcW : ℚ) * s := by positivity
    have hfl : (0 : ℤ) ≤ ((srcW : ℚ) * s).floor := Int.floor_nonneg.mpr hnn
    calc ((((srcW : ℚ) * s).floor.toNat : ℕ) : ℚ)
        = (((srcW : ℚ) * s).floor : ℚ) := by
          rw [show ((((srcW : ℚ) * s).floor.toNat : ℕ) : ℚ) =
            ((((srcW : ℚ) * s).floor.toNat : ℤ) : ℚ) by push_cast; ring,
            Int.toNat_of_nonneg hfl]
      _ ≤ (srcW : ℚ) * s := Int.floor_le _
      _ ≤ maxW := hWs
  · rw [if_neg hlt]
    have h1 : (1 : ℚ) ≤ maxW / (srcW : ℚ) := by
      have := not_lt.mp hlt
      rw [hmain] at this
      exact le_trans (le_min_iff.mp this).1 (min_le_left _ _)
    show ((srcW : ℕ) : ℚ) ≤ maxW
    exact (one_le_div hW').mp h1
  · rw [if_pos hlt]
    have hnn : (0 : ℚ) ≤ (srcH : ℚ) * s := by positivity
    have hfl : (0 : ℤ) ≤ ((srcH : ℚ) * s).floor := Int.floor_nonneg.mpr hnn
    calc ((((srcH : ℚ) * s).floor.toNat : ℕ) : ℚ)
        = (((srcH : ℚ) * s).floor : ℚ) := by
          rw [show ((((srcH : ℚ) * s).floor.toNat : ℕ) : ℚ) =
            ((((srcH : ℚ) * s).floor.toNat : ℤ) : ℚ) by push_cast; ring,
            Int.toNat_of_nonneg hfl]
      _ ≤ (srcH : ℚ) * s := Int.floor_le _
      _ ≤ maxH := hHs
  · rw [if_neg hlt]
    have h1 : (1 : ℚ) ≤ maxH / (srcH : ℚ) := by
      have := not_lt.mp hlt
      rw [hmain] at this
      exact le_trans (le_min_iff.mp this).1 (min_le_right _ _)
    show ((srcH : ℕ) : ℚ) ≤ maxH
    exact (one_le_div hH').mp h1
  · rw [if_pos hlt]
    have hle : (srcW : ℚ) * s ≤ (srcW : ℚ) := by
      calc (srcW : ℚ) * s ≤ (srcW : ℚ) * 1 :=
            mul_le_mul_of_nonneg_left hs_le_one (le_of_lt hW')
        _ = (srcW : ℚ) := mul_one _
    have : ((srcW : ℚ) * s).floor ≤ ((srcW : ℕ) : ℤ) := by
      have := Int.floor_le_floor hle
      simpa using this
    exact Int.toNat_le.mpr this
  · rw [if_neg hlt]
  · rw [if_pos hlt]
    have hle : (srcH : ℚ) * s ≤ (srcH : ℚ) := by
      calc (srcH : ℚ) * s ≤ (srcH : ℚ) * 1 :=
            mul_le_mul_of_nonneg_left hs_le_one (le_of_lt hH')
        _ = (srcH : ℚ) := mul_one _
    have : ((srcH : ℚ) * s).floor ≤ ((srcH : ℕ) : ℤ) := by
      have := Int.floor_le_floor hle
      simpa using this
    exact Int.toNat_le.mpr this
  · rw [if_neg hlt]

/-- Witness for C6: a 2400x800 source against 1200x800 bounds gives the
factor 1/2 and display dimensions (1200, 400). -/
theorem scale_factor_min_fit_witness :
    scale_factor ((2400 : ℕ) : ℚ) ((800 : ℕ) : ℚ) 1200 800 =
      min (min ((1200 : ℚ) / ((2400 : ℕ) : ℚ)) ((800 : ℚ) / ((800 : ℕ) : ℚ))) 1 ∧
    scale_factor ((2400 : ℕ) : ℚ) ((800 : ℕ) : ℚ) 1200 800 ≤ 1 ∧
    displayDims 2400 800 1200 800 =
      (if scale_factor ((2400 : ℕ) : ℚ) ((800 : ℕ) : ℚ) 1200 800 < 1 then
        ((((2400 : ℕ) : ℚ) * scale_factor ((2400 : ℕ) : ℚ) ((800 : ℕ) : ℚ) 1200 800).floor.toNat,
          (((800 : ℕ) : ℚ) * scale_factor ((2400 : ℕ) : ℚ) ((800 : ℕ) : ℚ) 1200 800).floor.toNat)
      else (2400, 800)) ∧
    ((displayDims 2400 800 1200 800).1 : ℚ) ≤ 1200 ∧
    ((displayDims 2400 800 1200 800).2 : ℚ) ≤ 800 ∧
    (displayDims 2400 800 1200 800).1 ≤ 2400 ∧
    (displayDims 2400 800 1200 800).2 ≤ 800 :=
  scale_factor_min_fit 2400 800 1200 800 (by norm_num) (by norm_num)
    (by norm_num) (by norm_num)

/-- `os.path.splitext` always splits the path into root and extension
whose concatenation is the original path. -/
theorem splitext_append (p : List Char) : (splitext p).1 ++ (splitext p).2 = p := by
  unfold splitext
  split
  · split
    · exact List.take_append_drop _ p
    · simp
  · simp

/-- C9 (amended): the derived destination is the source's splitext root
with the fixed string "_filled.pdf" appended.  The root and extension
recompose the source path, and when the source extension is exactly
".pdf" this coincides with inserting "_filled" before the (preserved)
extension; any other source extension is replaced by ".pdf", not
preserved. -/
theorem fill_output_path_characterization (p : String) :
    p.toList = (splitext p.toList).1 ++ (splitext p.toList).2 ∧
    fill_output_path p = String.mk ((splitext p.toList).1 ++ "_filled.pdf".toList) ∧
    ((splitext p.toList).2 = ".pdf".toList →
      fill_output_path p =
        String.mk ((splitext p.toList).1 ++ "_filled".toList ++ (splitext p.toList).2)) := by
  refine ⟨(splitext_append p.toList).symm, rfl, ?_⟩
  intro hext
  rw [hext]
  show String.mk ((splitext p.toList).1 ++ "_filled.pdf".toList) = _
  rw [List.append_assoc]
  rfl

/-- Witness for C9's amended theorem: a source named "name.pdf" gets the
suffix inserted before its preserved ".pdf" extension. -/
theorem fill_output_path_characterization_witness :
    "name.pdf".toList =
      (splitext "name.pdf".toList).1 ++ (splitext "name.pdf".toList).2 ∧
    fill_output_path "name.pdf" =
      String.mk ((splitext "name.pdf".toList).1 ++ "_filled.pdf".toList) ∧
    fill_output_path "name.pdf" =
      String.mk ((splitext "name.pdf".toList).1 ++ "_filled".toList ++
        (splitext "name.pdf".toList).2) := by
  have h := fill_output_path_characterization "name.pdf"
  exact ⟨h.1, h.2.1, h.2.2 (by decide)⟩

/-- C9 counterexample: a source extension other than ".pdf" is not
preserved — "doc.txt" maps to "doc_filled.pdf", not "doc_filled.txt". -/
theorem fill_output_path_cex :
    fill_output_path "doc.txt" = "doc_filled.pdf" ∧
    fill_output_path "doc.txt" ≠ "doc_filled.txt" := by
  refine ⟨by decide, by decide⟩

end Easydoc
